import Mathlib

/-!
Verification of the `coroutine_tasks` C++ coroutine task library
(`src/include/coroutine_tasks.hpp`).

The library is embedded shallowly:

* The structural combinators (`when_all` over a range, `when_n`, `when_any`,
  variadic `when_all`) share one pattern: a heap-allocated context holding the
  result container, a remaining-task count, and a `promise_handle` to the
  parent task.  Each input task gets a child continuation (attached via
  `then`) that, guarded by `task_count != 0`, writes its result into the
  container, decrements the count, and resumes the parent exactly when the
  count reaches zero.  We embed the context as a structure (resumption is
  modelled by a counter of `handle.resume()` calls) and a completion of input
  task `idx` as one application of the child-continuation step function; a
  whole execution is a fold of that step over the completion order, an
  arbitrary permutation of the input indices.
* `promise_handle<T>` operations (`resume`, `set_value`) are embedded over an
  `Option` frame state (`none` models a frame whose weak reference no longer
  locks, i.e. a destroyed frame) together with the list of observable events
  they emit, so that ordering claims (store before caller resumption) are
  provable.
* `task<T>` readiness and value extraction are embedded over an `Option`
  frame (`none` models a moved-from task with `coro_ == nullptr`).
-/

namespace CoroutineTasks

/-- Model of `detail::when_all_range_context<T>` (coroutine_tasks.hpp,
lines 526-541): the shared state of one range `when_all` invocation.
`results` models the `std::vector<T>` of result slots, `task_count` the
remaining-task count, and `resume_count` the number of `handle.resume()`
calls made on the parent's promise handle. -/
structure when_all_range_context (T : Type) where
  results : List T
  task_count : Nat
  resume_count : Nat
  deriving Repr, DecidableEq

/-- Model of the child continuation attached by range `when_all` to input task
`idx` (coroutine_tasks.hpp, lines 561-572): when task `idx` completes with its
awaited result (`vals.getD idx default`), the continuation checks
`task_count != 0`, writes the result into slot `idx`, decrements the count,
and resumes the parent when the count reaches zero. -/
def when_all_child [Inhabited T] (vals : List T) (ctx : when_all_range_context T)
    (idx : Nat) : when_all_range_context T :=
  if ctx.task_count ≠ 0 then
    let results := ctx.results.set idx (vals.getD idx default)
    let task_count := ctx.task_count - 1
    if task_count = 0 then
      { results := results, task_count := task_count, resume_count := ctx.resume_count + 1 }
    else
      { results := results, task_count := task_count, resume_count := ctx.resume_count }
  else ctx

/-- Initial context built by range `when_all` (coroutine_tasks.hpp,
lines 550-553): `task_count` is the number of input tasks and `results` is
resized (default-initialised) to that number. -/
def when_all_init (T : Type) [Inhabited T] (n : Nat) : when_all_range_context T :=
  { results := List.replicate n default, task_count := n, resume_count := 0 }

/-- Running the range `when_all` child continuations over a completion order:
each element of `order` is the index of the input task that completes next,
and completing input task `idx` delivers that task's awaited result
`vals.getD idx default` to its child continuation. -/
def when_all_run [Inhabited T] (vals : List T) (order : List Nat) :
    when_all_range_context T :=
  order.foldl (when_all_child vals) (when_all_init T vals.length)

/-- The suspend decision of the `when_all` parent coroutine
(coroutine_tasks.hpp, lines 576-583): `co_await ex::suspend_if{suspend}` with
`suspend = (all_task_count != 0)`. -/
def when_all_suspends (n : Nat) : Bool := n != 0

/-- Reading slot `i` of a list after `List.set`: within bounds, slot `j` holds
the written value and every other slot is unchanged. -/
lemma getD_set {α : Type} (l : List α) (i j : Nat) (v d : α) (h : i < l.length) :
    (l.set j v).getD i d = if i = j then v else l.getD i d := by
  induction l generalizing i j with
  | nil => simp at h
  | cons a t ih =>
    cases j with
    | zero =>
      cases i with
      | zero => simp
      | succ i => simp
    | succ j =>
      cases i with
      | zero => simp
      | succ i =>
        simp only [List.set, List.getD_cons_succ]
        have ht : i < t.length := by simpa using h
        simpa using ih i j ht

/-- Main invariant of the `when_all` child-continuation fold: starting from a
context whose remaining count equals the number of pending completions, the
fold drives the count to zero, preserves the container length, fills exactly
the slots whose index occurs in the order with the corresponding input's
result, and resumes the parent exactly once (never if there is nothing to
process). -/
lemma when_all_foldl [Inhabited T] (vals : List T) (order : List Nat)
    (ctx : when_all_range_context T) (hcount : ctx.task_count = order.length) :
    (order.foldl (when_all_child vals) ctx).task_count = 0 ∧
    (order.foldl (when_all_child vals) ctx).results.length = ctx.results.length ∧
    (∀ i, i < ctx.results.length →
      (order.foldl (when_all_child vals) ctx).results.getD i default =
        if i ∈ order then vals.getD i default else ctx.results.getD i default) ∧
    (order.foldl (when_all_child vals) ctx).resume_count =
      ctx.resume_count + (if order = [] then 0 else 1) := by
  induction order generalizing ctx with
  | nil =>
    refine ⟨by simpa using hcount, rfl, ?_, by simp⟩
    intro i hi
    simp
  | cons j rest ih =>
    have hlen : ctx.task_count = rest.length + 1 := by simpa using hcount
    have hne : ctx.task_count ≠ 0 := by omega
    have hstep : when_all_child vals ctx j =
        { results := ctx.results.set j (vals.getD j default),
          task_count := rest.length,
          resume_count := ctx.resume_count + (if rest.length = 0 then 1 else 0) } := by
      rw [when_all_child, if_pos hne]
      by_cases h0 : ctx.task_count - 1 = 0
      · have hr0 : rest.length = 0 := by omega
        simp [h0, hr0]
      · have hr0 : rest.length ≠ 0 := by omega
        simp [h0, hr0, hlen]
    rw [List.foldl_cons, hstep]
    obtain ⟨h1, h2, h3, h4⟩ :=
      ih { results := ctx.results.set j (vals.getD j default),
           task_count := rest.length,
           resume_count := ctx.resume_count + (if rest.length = 0 then 1 else 0) } rfl
    refine ⟨h1, ?_, ?_, ?_⟩
    · simpa using h2
    · intro i hi
      have hi2 : i < (ctx.results.set j (vals.getD j default)).length := by simpa using hi
      have h3i := h3 i (by simpa using hi)
      rw [h3i]
      by_cases hmem : i ∈ rest
      · simp [hmem]
      · rw [if_neg hmem, getD_set ctx.results i j _ _ hi]
        by_cases hij : i = j
        · subst hij
          simp
        · simp [hij, hmem]
    · rw [h4]
      rcases rest with _ | ⟨r, rs⟩
      · simp
      · simp

/-- C1: for every finite sequence of `N` input tasks and every order in which
they actually complete (any permutation of the indices, including reverse and
random orders), the range `when_all` context ends with a result sequence equal
to the input results — length `N`, slot `i` holding the awaited result of
input task `i` — and the parent task is resumed (exactly once) so that it
completes. -/
theorem when_all_range_correct [Inhabited T] (vals : List T) (order : List Nat)
    (hperm : order.Perm (List.range vals.length)) :
    (when_all_run vals order).results = vals ∧
    (when_all_run vals order).results.length = vals.length ∧
    (when_all_run vals order).resume_count = if vals.length = 0 then 0 else 1 := by
  have hlen : order.length = vals.length := by simpa using hperm.length_eq
  have hmem : ∀ i, i ∈ order ↔ i < vals.length := by
    intro i
    rw [hperm.mem_iff, List.mem_range]
  obtain ⟨h1, h2, h3, h4⟩ :=
    when_all_foldl vals order (when_all_init T vals.length)
      (by simp [when_all_init, hlen])
  have hinitlen : (when_all_init T vals.length).results.length = vals.length := by
    simp [when_all_init]
  have hreslen : (when_all_run vals order).results.length = vals.length := by
    rw [when_all_run, h2, hinitlen]
  refine ⟨?_, hreslen, ?_⟩
  · apply List.ext_getElem (by rw [hreslen])
    intro i hi1 hi2
    have hi : i < vals.length := hi2
    have h3i := h3 i (by rw [hinitlen]; exact hi)
    rw [if_pos ((hmem i).mpr hi)] at h3i
    have hl : (when_all_run vals order).results.getD i default =
        (when_all_run vals order).results[i] := List.getD_eq_getElem _ _ hi1
    have hr : vals.getD i default = vals[i] := List.getD_eq_getElem _ _ hi2
    rw [← hl, ← hr]
    exact h3i
  · rw [when_all_run, h4]
    by_cases hN : vals.length = 0
    · have : order = [] := by
        have : order.length = 0 := by rw [hlen, hN]
        exact List.length_eq_zero.mp this
      simp [this, hN, when_all_init]
    · have : order ≠ [] := by
        intro h
        rw [h] at hlen
        simp at hlen
        omega
      simp [this, hN, when_all_init]

/-- Witness for C1 at the spec's concrete scenario: three tasks producing
10, 20, 30 completing in the order [30, 10, 20] (indices [2, 0, 1]) yield the
positional result [10, 20, 30] with the parent resumed once. -/
theorem when_all_range_correct_witness :
    (when_all_run ([10, 20, 30] : List Nat) [2, 0, 1]).results = [10, 20, 30] ∧
    (when_all_run ([10, 20, 30] : List Nat) [2, 0, 1]).results.length = 3 ∧
    (when_all_run ([10, 20, 30] : List Nat) [2, 0, 1]).resume_count = 1 := by
  have h := when_all_range_correct ([10, 20, 30] : List Nat) [2, 0, 1] (by decide)
  simpa using h

/-- Model of `detail::when_n_range_context<T>` (coroutine_tasks.hpp,
lines 593-608): the shared state of one `when_n` invocation.  `results` models
the `std::vector<std::pair<size_t, T>>` of (input index, result) pairs in
completion order, `task_count` the remaining count until the threshold, and
`resume_count` the number of `handle.resume()` calls on the parent. -/
structure when_n_range_context (T : Type) where
  results : List (Nat × T)
  task_count : Nat
  resume_count : Nat
  deriving Repr, DecidableEq

/-- Model of `when_n_range_context<T>::set_result` (coroutine_tasks.hpp,
line 603): `results.emplace_back(idx, std::move(data))`. -/
def when_n_set_result (ctx : when_n_range_context T) (idx : Nat) (a : T) :
    when_n_range_context T :=
  { ctx with results := ctx.results ++ [(idx, a)] }

/-- Model of the child continuation attached by `when_n` to input task `idx`
(coroutine_tasks.hpp, lines 628-639): when task `idx` completes, the
continuation checks `task_count != 0`, appends the (index, result) pair, and
decrements the count, resuming the parent when it reaches zero. -/
def when_n_child [Inhabited T] (vals : List T) (ctx : when_n_range_context T)
    (idx : Nat) : when_n_range_context T :=
  if ctx.task_count ≠ 0 then
    let ctx1 := when_n_set_result ctx idx (vals.getD idx default)
    let task_count := ctx.task_count - 1
    if task_count = 0 then
      { ctx1 with task_count := task_count, resume_count := ctx.resume_count + 1 }
    else
      { ctx1 with task_count := task_count, resume_count := ctx.resume_count }
  else ctx

/-- Threshold clamping performed by `when_n` (coroutine_tasks.hpp, line 619):
`n = ((n && n < all_task_count) ? n : all_task_count)`. -/
def when_n_clamp (n N : Nat) : Nat := if n ≠ 0 ∧ n < N then n else N

/-- Running the `when_n` child continuations over a completion order, starting
from the freshly built context (coroutine_tasks.hpp, lines 617-620): empty
result container and `task_count` set to the clamped threshold. -/
def when_n_run [Inhabited T] (vals : List T) (n : Nat) (order : List Nat) :
    when_n_range_context T :=
  order.foldl (when_n_child vals)
    { results := [], task_count := when_n_clamp n vals.length, resume_count := 0 }

/-- The state of a `when_n` run after only the first `m` completions of the
order have happened: used to pinpoint the moment the parent is resumed. -/
def when_n_run_upto [Inhabited T] (vals : List T) (n : Nat) (order : List Nat)
    (m : Nat) : when_n_range_context T :=
  when_n_run vals n (order.take m)

/-- Main invariant of the `when_n` child-continuation fold, for an arbitrary
starting context: the first `task_count` completions are appended (in
completion order) and every later completion is dropped by the
`task_count != 0` guard; the parent is resumed exactly once, exactly when
enough completions arrive to exhaust a non-zero count. -/
lemma when_n_foldl [Inhabited T] (vals : List T) (order : List Nat)
    (ctx : when_n_range_context T) :
    (order.foldl (when_n_child vals) ctx).results =
      ctx.results ++ (order.take ctx.task_count).map (fun i => (i, vals.getD i default)) ∧
    (order.foldl (when_n_child vals) ctx).task_count = ctx.task_count - order.length ∧
    (order.foldl (when_n_child vals) ctx).resume_count =
      ctx.resume_count +
        (if ctx.task_count ≠ 0 ∧ ctx.task_count ≤ order.length then 1 else 0) := by
  induction order generalizing ctx with
  | nil =>
    refine ⟨by simp, by simp, ?_⟩
    have : ¬(ctx.task_count ≠ 0 ∧ ctx.task_count ≤ ([] : List Nat).length) := by
      simp only [List.length_nil]
      omega
    simp [this]
  | cons e rest ih =>
    rcases htc : ctx.task_count with _ | tc
    · have hstep : when_n_child vals ctx e = ctx := by
        rw [when_n_child, if_neg]
        simp [htc]
      rw [List.foldl_cons, hstep]
      obtain ⟨h1, h2, h3⟩ := ih ctx
      refine ⟨by simpa [htc] using h1, by simp [h2, htc], ?_⟩
      rw [h3]
      have hc1 : ¬(ctx.task_count ≠ 0 ∧ ctx.task_count ≤ rest.length) := by
        simp [htc]
      have hc2 : ¬(ctx.task_count ≠ 0 ∧ ctx.task_count ≤ (e :: rest).length) := by
        simp [htc]
      simp [hc1, hc2]
    · have hne : ctx.task_count ≠ 0 := by omega
      have hstep : when_n_child vals ctx e =
          { results := ctx.results ++ [(e, vals.getD e default)],
            task_count := tc,
            resume_count := ctx.resume_count + (if tc = 0 then 1 else 0) } := by
        rw [when_n_child, if_pos hne]
        by_cases h0 : ctx.task_count - 1 = 0
        · have htc0 : tc = 0 := by omega
          simp [h0, htc0, when_n_set_result]
        · have htc0 : tc ≠ 0 := by omega
          simp [h0, htc0, when_n_set_result, htc]
      rw [List.foldl_cons, hstep]
      obtain ⟨h1, h2, h3⟩ :=
        ih { results := ctx.results ++ [(e, vals.getD e default)],
             task_count := tc,
             resume_count := ctx.resume_count + (if tc = 0 then 1 else 0) }
      refine ⟨?_, ?_, ?_⟩
      · rw [h1]
        simp [htc, List.take_succ_cons]
      · rw [h2]
        simp only [htc, List.length_cons]
        omega
      · rw [h3]
        simp only [htc, List.length_cons]
        rcases Nat.eq_zero_or_pos tc with h0 | h0
        · have hc1 : ¬(tc ≠ 0 ∧ tc ≤ rest.length) := by omega
          have hc2 : tc + 1 ≠ 0 ∧ tc + 1 ≤ rest.length + 1 := by omega
          simp [h0, hc1, hc2]
        · have h0' : tc ≠ 0 := by omega
          by_cases hle : tc ≤ rest.length
          · have hc1 : tc ≠ 0 ∧ tc ≤ rest.length := ⟨h0', hle⟩
            have hc2 : tc + 1 ≠ 0 ∧ tc + 1 ≤ rest.length + 1 := by omega
            simp [h0', hc1, hc2]
          · have hc1 : ¬(tc ≠ 0 ∧ tc ≤ rest.length) := by omega
            have hc2 : ¬(tc + 1 ≠ 0 ∧ tc + 1 ≤ rest.length + 1) := by omega
            simp [h0', hc1, hc2]

/-- C2: for every sequence of `N` input tasks, every threshold `k` with
`0 < k < N`, and every completion order (a permutation of the indices),
`when_n` collects exactly the first `k` completions as (index, value) pairs in
completion order — later completions are dropped, not stored — and the parent
is resumed exactly once, precisely at the moment the `k`-th completion occurs:
after `m` completions the parent has been resumed `0` times if `m < k` and
exactly `1` time if `m ≥ k`. -/
theorem when_n_correct [Inhabited T] (vals : List T) (k : Nat) (order : List Nat)
    (hperm : order.Perm (List.range vals.length)) (hk0 : 0 < k)
    (hkN : k < vals.length) :
    (when_n_run vals k order).results =
      (order.take k).map (fun i => (i, vals.getD i default)) ∧
    (when_n_run vals k order).results.length = k ∧
    (when_n_run vals k order).resume_count = 1 ∧
    (∀ m : Nat, (when_n_run_upto vals k order m).resume_count =
      if k ≤ m then 1 else 0) := by
  have hlen : order.length = vals.length := by simpa using hperm.length_eq
  have hclamp : when_n_clamp k vals.length = k := by
    rw [when_n_clamp, if_pos ⟨by omega, hkN⟩]
  obtain ⟨h1, h2, h3⟩ :=
    when_n_foldl vals order
      { results := [], task_count := when_n_clamp k vals.length, resume_count := 0 }
  have hres : (when_n_run vals k order).results =
      (order.take k).map (fun i => (i, vals.getD i default)) := by
    rw [when_n_run, h1]
    simp [hclamp]
  refine ⟨hres, ?_, ?_, ?_⟩
  · rw [hres, List.length_map, List.length_take, hlen]
    omega
  · rw [when_n_run, h3]
    have : when_n_clamp k vals.length ≠ 0 ∧ when_n_clamp k vals.length ≤ order.length := by
      rw [hclamp, hlen]
      omega
    simp [this]
  · intro m
    obtain ⟨g1, g2, g3⟩ :=
      when_n_foldl vals (order.take m)
        { results := [], task_count := when_n_clamp k vals.length, resume_count := 0 }
    rw [when_n_run_upto, when_n_run, g3]
    simp only [hclamp, List.length_take, hlen]
    by_cases hm : k ≤ m
    · have hcond : k ≠ 0 ∧ k ≤ min m vals.length := by omega
      simp [hcond, hm]
    · have hcond : ¬(k ≠ 0 ∧ k ≤ min m vals.length) := by omega
      simp [hcond, hm]

/-- Witness for C2 at the spec's concrete scenario: three tasks producing
10, 20, 30 with threshold k = 2 and completion order [2, 0, 1] give exactly
the first two completions [(2, 30), (0, 10)] in completion order; the parent
has been resumed 0 times after 1 completion and exactly once after 2 and
after all 3. -/
theorem when_n_correct_witness :
    (when_n_run ([10, 20, 30] : List Nat) 2 [2, 0, 1]).results = [(2, 30), (0, 10)] ∧
    (when_n_run ([10, 20, 30] : List Nat) 2 [2, 0, 1]).results.length = 2 ∧
    (when_n_run ([10, 20, 30] : List Nat) 2 [2, 0, 1]).resume_count = 1 ∧
    (when_n_run_upto ([10, 20, 30] : List Nat) 2 [2, 0, 1] 1).resume_count = 0 ∧
    (when_n_run_upto ([10, 20, 30] : List Nat) 2 [2, 0, 1] 2).resume_count = 1 ∧
    (when_n_run_upto ([10, 20, 30] : List Nat) 2 [2, 0, 1] 3).resume_count = 1 := by
  have h := when_n_correct ([10, 20, 30] : List Nat) 2 [2, 0, 1] (by decide)
    (by decide) (by decide)
  refine ⟨by simpa using h.1, h.2.1, h.2.2.1, ?_, ?_, ?_⟩
  · simpa using h.2.2.2 1
  · simpa using h.2.2.2 2
  · simpa using h.2.2.2 3

/-- Model of `when_any` (coroutine_tasks.hpp, lines 656-663): `when_n` with
threshold 1 followed by `.then([](vec) { return vec[0]; })`, which projects
the single collected (index, value) pair out of the result vector. -/
def when_any_run [Inhabited T] (vals : List T) (order : List Nat) : Nat × T :=
  (when_n_run vals 1 order).results.getD 0 (0, default)

/-- C7: for every non-empty sequence of input tasks and every completion
order, `when_any` yields the (index, value) pair of whichever input task
completes first — the head of the completion order. -/
theorem when_any_first_completer [Inhabited T] (vals : List T) (i : Nat)
    (rest : List Nat) (hperm : (i :: rest).Perm (List.range vals.length)) :
    when_any_run vals (i :: rest) = (i, vals.getD i default) := by
  have hN : 0 < vals.length := by
    have hm : i ∈ List.range vals.length := hperm.mem_iff.mp (List.mem_cons_self i rest)
    have := List.mem_range.mp hm
    omega
  have hclamp : when_n_clamp 1 vals.length = 1 := by
    rw [when_n_clamp]
    rcases Nat.lt_or_ge 1 vals.length with h | h
    · rw [if_pos ⟨by omega, h⟩]
    · have h1 : vals.length = 1 := by omega
      rw [h1]
      simp
  obtain ⟨h1, h2, h3⟩ :=
    when_n_foldl vals (i :: rest)
      { results := [], task_count := when_n_clamp 1 vals.length, resume_count := 0 }
  rw [when_any_run, when_n_run, h1]
  simp [hclamp, List.take_succ_cons]

/-- Witness for C7 at the spec's concrete scenario: among three tasks
producing 10, 20, 30, if the task at index 2 completes before indices 0
and 1, `when_any` yields (index = 2, value = 30). -/
theorem when_any_first_completer_witness :
    when_any_run ([10, 20, 30] : List Nat) [2, 0, 1] = (2, 30) := by
  have h := when_any_first_completer ([10, 20, 30] : List Nat) 2 [0, 1] (by decide)
  simpa using h

/-- Model of `detail::when_all_variadic_context<Ts...>` (coroutine_tasks.hpp,
lines 670-690): the shared state of one variadic (fixed-arity) `when_all`
invocation.  `results` models the heterogeneous `std::tuple` of result slots
at an abstract result type `R`, `task_count` the remaining count (initially
`sizeof...(Ts)`), and `resume_count` the `handle.resume()` calls. -/
structure when_all_variadic_context (R : Type) where
  results : R
  task_count : Nat
  resume_count : Nat
  deriving Repr, DecidableEq

/-- Model of `when_all_variadic_context::set_variadic_result<I>`
(coroutine_tasks.hpp, lines 676-685): guarded by `task_count != 0`, store the
child's result into tuple slot `I` — modelled by the slot update function
`upd`, standing for `std::get<I>(results) = std::move(t)` — then decrement the
count and resume the parent when it reaches zero. -/
def set_variadic_result (upd : R → R) (ctx : when_all_variadic_context R) :
    when_all_variadic_context R :=
  if ctx.task_count ≠ 0 then
    let results := upd ctx.results
    let task_count := ctx.task_count - 1
    if task_count = 0 then
      { results := results, task_count := task_count, resume_count := ctx.resume_count + 1 }
    else
      { results := results, task_count := task_count, resume_count := ctx.resume_count }
  else ctx

/-- C5: in each of the three combinator shapes (range `when_all`, `when_n`,
variadic `when_all`), once the shared remaining count has reached zero, every
subsequently completing child continuation is dropped whole by the
`task_count != 0` check that precedes the write: no sequence of later
completions changes the shared state — in particular nothing is ever written
into the result container after the count reaches zero. -/
theorem combinators_drop_late_writes [Inhabited T] (vals : List T)
    (ctxA : when_all_range_context T) (ctxN : when_n_range_context T)
    (R : Type) (ctxV : when_all_variadic_context R)
    (hA : ctxA.task_count = 0) (hN : ctxN.task_count = 0)
    (hV : ctxV.task_count = 0) :
    (∀ order : List Nat, order.foldl (when_all_child vals) ctxA = ctxA) ∧
    (∀ order : List Nat, order.foldl (when_n_child vals) ctxN = ctxN) ∧
    (∀ upds : List (R → R),
      upds.foldl (fun c u => set_variadic_result u c) ctxV = ctxV) := by
  have stepA : ∀ i, when_all_child vals ctxA i = ctxA := by
    intro i
    rw [when_all_child, if_neg]
    simp [hA]
  have stepN : ∀ i, when_n_child vals ctxN i = ctxN := by
    intro i
    rw [when_n_child, if_neg]
    simp [hN]
  have stepV : ∀ u : R → R, set_variadic_result u ctxV = ctxV := by
    intro u
    rw [set_variadic_result, if_neg]
    simp [hV]
  refine ⟨?_, ?_, ?_⟩
  · intro order
    induction order with
    | nil => rfl
    | cons j rest ih => rw [List.foldl_cons, stepA j, ih]
  · intro order
    induction order with
    | nil => rfl
    | cons j rest ih => rw [List.foldl_cons, stepN j, ih]
  · intro upds
    induction upds with
    | nil => rfl
    | cons u rest ih => rw [List.foldl_cons, stepV u, ih]

/-- Witness for C5: contexts whose count has already reached zero are left
untouched by further completions, in all three combinator shapes. -/
theorem combinators_drop_late_writes_witness :
    [0, 1].foldl (when_all_child ([7, 8] : List Nat))
      { results := [7, 8], task_count := 0, resume_count := 1 } =
      { results := [7, 8], task_count := 0, resume_count := 1 } ∧
    [0, 1].foldl (when_n_child ([7, 8] : List Nat))
      { results := [(1, 8)], task_count := 0, resume_count := 1 } =
      { results := [(1, 8)], task_count := 0, resume_count := 1 } ∧
    [fun _ => (5 : Nat)].foldl (fun c u => set_variadic_result u c)
      { results := (3 : Nat), task_count := 0, resume_count := 1 } =
      { results := (3 : Nat), task_count := 0, resume_count := 1 } := by
  have h := combinators_drop_late_writes ([7, 8] : List Nat)
    { results := [7, 8], task_count := 0, resume_count := 1 }
    { results := [(1, 8)], task_count := 0, resume_count := 1 }
    Nat { results := (3 : Nat), task_count := 0, resume_count := 1 }
    rfl rfl rfl
  exact ⟨h.1 [0, 1], h.2.1 [0, 1], h.2.2 [fun _ => (5 : Nat)]⟩

/-- C6: range `when_all` applied to an empty input sequence builds a parent
that does not suspend (`ex::suspend_if{all_task_count != 0}` with count 0) and
whose immediately returned result `c->results` is the empty sequence; no
resumption is needed or performed. -/
theorem when_all_empty_immediate (T : Type) [Inhabited T] :
    when_all_suspends (([] : List T).length) = false ∧
    (when_all_run ([] : List T) []).results = ([] : List T) ∧
    (when_all_run ([] : List T) []).resume_count = 0 :=
  ⟨rfl, rfl, rfl⟩

/-- Witness for C6 at `T = Nat`: the empty `when_all` neither suspends nor
resumes, and its result is the empty sequence. -/
theorem when_all_empty_immediate_witness :
    when_all_suspends (([] : List Nat).length) = false ∧
    (when_all_run ([] : List Nat) []).results = ([] : List Nat) ∧
    (when_all_run ([] : List Nat) []).resume_count = 0 :=
  when_all_empty_immediate Nat

/-- Observable events emitted by the promise machinery: a value being stored
into the promise (`promise<T>::set_value`), the frame's own coroutine being
resumed (`sp->resume()`), and the recorded caller being resumed
(`me->caller_coro_.resume()` in `final_suspend`). -/
inductive PHEvent (T : Type) where
  | store (v : T)
  | frameResumed
  | callerResumed
  deriving Repr, DecidableEq

/-- Model of the frame a `promise_handle<T>` refers to: the promise's stored
`result_` (coroutine_tasks.hpp, line 245), whether a caller coroutine is
recorded in `caller_coro_` (line 216), and whether the coroutine is suspended
at its final suspend point (`coro->done()`). -/
structure PHFrame (T : Type) where
  result : T
  hasCaller : Bool
  done : Bool
  deriving Repr, DecidableEq

/-- Model of `promise<void>::final_suspend` (coroutine_tasks.hpp,
lines 195-209): at the final suspension point, if a caller was recorded by
`set_caller`, resume it. -/
def final_suspend_events (T : Type) (hasCaller : Bool) : List (PHEvent T) :=
  if hasCaller then [PHEvent.callerResumed] else []

/-- Resuming a frame that is suspended at its last suspend point: the
coroutine computes its return value from the promise state (`body` stands for
the remainder of the coroutine's body ending in `return_value`,
coroutine_tasks.hpp, lines 226-229) and reaches `final_suspend`, which
resumes the recorded caller. -/
def frame_resume (body : T → T) (f : PHFrame T) : PHFrame T × List (PHEvent T) :=
  ({ result := body f.result, hasCaller := f.hasCaller, done := true },
    PHEvent.frameResumed :: final_suspend_events T f.hasCaller)

/-- Model of `promise_handle<>::resume` (coroutine_tasks.hpp, lines 133-140):
lock the weak reference; if the frame is alive (`none` models a destroyed
frame, whose weak reference no longer locks) and not done, resume it and
return `true`; otherwise return `false` and leave everything untouched. -/
def ph_resume (body : T → T) (fr : Option (PHFrame T)) :
    Bool × Option (PHFrame T) × List (PHEvent T) :=
  match fr with
  | none => (false, none, [])
  | some f =>
    if f.done then (false, some f, [])
    else
      let r := frame_resume body f
      (true, some r.1, r.2)

/-- Model of `promise_handle<T>::set_value` (coroutine_tasks.hpp,
lines 181-188): `get_promise()` locks the weak reference; on success the
value is stored into the promise (`promise<T>::set_value`, lines 236-239) and
`resume()` is called; if the frame is destroyed (`get_promise()` returns
null) nothing at all happens. -/
def ph_set_value (body : T → T) (fr : Option (PHFrame T)) (v : T) :
    Option (PHFrame T) × List (PHEvent T) :=
  match fr with
  | none => (none, [])
  | some f =>
    let f1 : PHFrame T := { f with result := v }
    let r := ph_resume body (some f1)
    (r.2.1, PHEvent.store v :: r.2.2)

/-- C3: operations through a `promise_handle` whose referenced frame has been
destroyed (`none`) are safe no-ops: `resume()` reports failure (`false`) and
changes nothing, and `set_value` stores nothing, resumes nothing and emits no
event at all; and `resume()` on a frame that has already completed and resumed
(`done = true`) is likewise a no-op returning failure. -/
theorem promise_handle_safe_noop (T : Type) (body : T → T) (v : T)
    (f : PHFrame T) (hdone : f.done = true) :
    ph_resume body (none : Option (PHFrame T)) = (false, none, []) ∧
    ph_set_value body (none : Option (PHFrame T)) v = (none, []) ∧
    ph_resume body (some f) = (false, some f, []) := by
  refine ⟨rfl, rfl, ?_⟩
  rw [ph_resume]
  simp [hdone]

/-- Witness for C3 at `T = Nat`: a destroyed frame and an already-done frame
holding 0. -/
theorem promise_handle_safe_noop_witness :
    ph_resume id (none : Option (PHFrame Nat)) = (false, none, []) ∧
    ph_set_value id (none : Option (PHFrame Nat)) 7 = (none, []) ∧
    ph_resume id (some { result := 0, hasCaller := false, done := true }) =
      (false, some { result := 0, hasCaller := false, done := true }, []) :=
  promise_handle_safe_noop Nat id 7 { result := 0, hasCaller := false, done := true } rfl

/-- C4: `set_value(v)` through a `promise_handle<T>` on a live, not-yet-done
frame first stores `v` into the frame's promise and then immediately resumes:
the frame's coroutine runs its remainder and its `final_suspend` resumes the
recorded caller (if any) — all before `set_value` returns control to the
producer, as the emitted event trace shows; the frame ends done, its promise
holding the coroutine's return value computed from the stored `v`. -/
theorem set_value_stores_then_resumes (T : Type) (body : T → T) (v : T)
    (f : PHFrame T) (hdone : f.done = false) :
    (ph_set_value body (some f) v).2 =
      PHEvent.store v :: PHEvent.frameResumed ::
        (if f.hasCaller then [PHEvent.callerResumed] else []) ∧
    (ph_set_value body (some f) v).1 =
      some { result := body v, hasCaller := f.hasCaller, done := true } := by
  rw [ph_set_value, ph_resume]
  simp [hdone, frame_resume, final_suspend_events]

/-- Witness for C4 at `T = Nat`: a live frame with a recorded caller receives
7; the trace is store-then-frame-resumed-then-caller-resumed and the frame
ends done. -/
theorem set_value_stores_then_resumes_witness :
    (ph_set_value id (some { result := 0, hasCaller := true, done := false }) 7).2 =
      [PHEvent.store 7, PHEvent.frameResumed, PHEvent.callerResumed] ∧
    (ph_set_value id (some { result := 0, hasCaller := true, done := false }) 7).1 =
      some { result := 7, hasCaller := true, done := true } := by
  have h := set_value_stores_then_resumes Nat id 7
    { result := 0, hasCaller := true, done := false } rfl
  simpa using h

/-- Model of a live `task<T>` frame: the promise's stored `result_` and
whether the coroutine is suspended at its final suspend point
(`coro_.done()`).  A `task<T>` value is an `Option (task_frame T)`: `none`
models a moved-from task, whose `coro_` is null. -/
structure task_frame (T : Type) where
  result : T
  done : Bool
  deriving Repr, DecidableEq

/-- Model of `make_task(F&& func)` (coroutine_tasks.hpp, lines 510-519): the
wrapped coroutine `co_await suspend_always{}; return f();` starts immediately
(`initial_suspend` is `suspend_never`, line 194) and runs up to the
`suspend_always`, where it suspends: not done, promise result still
default-constructed, `f` not yet invoked. -/
def make_task (T : Type) [Inhabited T] (f : Unit → T) : task_frame T :=
  { result := default, done := false }

/-- First resumption of a `make_task` frame: the body resumes after the
`suspend_always`, computes `f()`, stores it via `return_value`
(coroutine_tasks.hpp, lines 226-229), and reaches the final suspend point:
the coroutine is now done. -/
def make_task_resume (f : Unit → T) (fr : task_frame T) : task_frame T :=
  { result := f (), done := true }

/-- Model of `task<T>::is_ready` (coroutine_tasks.hpp, lines 313-316):
`coro_ ? coro_.done() : true` — a moved-from task reports itself ready. -/
def task_is_ready : Option (task_frame T) → Bool
  | some fr => fr.done
  | none => true

/-- Model of `task<T>::cur_value_ref` (coroutine_tasks.hpp, lines 319-328):
the promise's stored value for a live frame; for a moved-from task, a
(static) default-constructed `T`. -/
def task_cur_value_ref [Inhabited T] : Option (task_frame T) → T
  | some fr => fr.result
  | none => default

/-- Model of `task<T>::await_resume` (coroutine_tasks.hpp, line 255):
`return std::move(cur_value_ref())`. -/
def task_await_resume [Inhabited T] (t : Option (task_frame T)) : T :=
  task_cur_value_ref t

/-- C8: for every callable `f`, the task returned by `make_task(f)` is not
ready before its first resumption; after its first resumption it is ready and
awaiting it yields `f()`. -/
theorem make_task_ready_after_resume (T : Type) [Inhabited T] (f : Unit → T) :
    task_is_ready (some (make_task T f)) = false ∧
    task_is_ready (some (make_task_resume f (make_task T f))) = true ∧
    task_await_resume (some (make_task_resume f (make_task T f))) = f () :=
  ⟨rfl, rfl, rfl⟩

/-- C9: a moved-from `task<T>` (no frame, `coro_ == nullptr`) reports
`is_ready()` as `true`, and awaiting it yields the default value of `T` —
`task_await_resume none` does not depend on the original computation `f`, so
the computation is never re-run. -/
theorem moved_from_task_ready_default (T : Type) [Inhabited T] (f : Unit → T) :
    task_is_ready (none : Option (task_frame T)) = true ∧
    task_await_resume (none : Option (task_frame T)) = (default : T) :=
  ⟨rfl, rfl⟩

/-- Witness for C8 at `T = Nat` with `f () = 42`: not ready when constructed,
ready with 42 after the first resumption. -/
theorem make_task_ready_after_resume_witness :
    task_is_ready (some (make_task Nat (fun _ => 42))) = false ∧
    task_is_ready (some (make_task_resume (fun _ => 42) (make_task Nat (fun _ => 42)))) = true ∧
    task_await_resume (some (make_task_resume (fun _ => 42) (make_task Nat (fun _ => 42)))) = 42 :=
  make_task_ready_after_resume Nat (fun _ => 42)

/-- Witness for C9 at `T = Nat`: a moved-from task is ready and yields 0
(the default `Nat`), not the original computation's 42. -/
theorem moved_from_task_ready_default_witness :
    task_is_ready (none : Option (task_frame Nat)) = true ∧
    task_await_resume (none : Option (task_frame Nat)) = 0 :=
  moved_from_task_ready_default Nat (fun _ => 42)

/-- A task modelled denotationally by the computation producing its eventual
value. -/
def CTask (T : Type) : Type := Unit → T

/-- Model of `task<T>::then` for a unary, plain-value-returning continuation
(coroutine_tasks.hpp, lines 422-432): the composite task awaits the original
task and applies `f` to its value. -/
def task_then (t : CTask T) (f : T → U) : CTask U := fun u => f (t u)

/-- Model of `task<T>::then_multi` (coroutine_tasks.hpp, lines 344-347),
faithful to the code as written: `then_multi(fn, fns...)` returns
`then(fn).then_multi(fns...)`.  The recursion always bottoms out in a call
`then_multi()` with zero arguments; no zero-argument overload of `then_multi`
exists in the class, so that call has no viable candidate and fails to
resolve — modelled by `none` for the empty continuation list. -/
def then_multi (t : CTask T) : List (T → T) → Option (CTask T)
  | [] => none
  | f :: fs => then_multi (task_then t f) fs

/-- Every use of `then_multi`, whatever the number of continuations, reaches
the unresolvable zero-argument call. -/
lemma then_multi_eq_none (fs : List (T → T)) (t : CTask T) :
    then_multi t fs = none := by
  induction fs generalizing t with
  | nil => rfl
  | cons f rest ih => exact ih (task_then t f)

/-- C10 (code bug, evaluated at the failing input): for the task producing 3
and the continuations (+1), (*2), (+5), the chained form
`t.then(f).then(g).then(h)` is a well-formed task whose value is 13, but
`then_multi(f, g, h)` as written never yields a task: its recursive expansion
`then(f).then(g).then(h).then_multi()` ends in a zero-argument `then_multi`
call for which no overload exists. -/
theorem then_multi_diverges_from_then_chain :
    then_multi (fun _ => (3 : Nat))
      [fun x => x + 1, fun x => x * 2, fun x => x + 5] = none ∧
    task_then (task_then (task_then (fun _ => (3 : Nat))
      (fun x => x + 1)) (fun x => x * 2)) (fun x => x + 5) () = 13 :=
  ⟨rfl, rfl⟩

end CoroutineTasks
